import Mathlib

/-!
Verification development for the file-backed semantic retrieval layer of the
repository: the JSON embedding store (`lib/vector-store.ts`) and the
chunking / cosine-similarity routines of `lib/ai/embedding.ts` (whose source
is reproduced in `guide/02-rag-part2-chunking.md` and
`guide/02-rag-part4-similarity.md`).

Modelling conventions:
* JavaScript numbers are modelled as exact real numbers (`ℝ`); the JSON text
  on disk is modelled up to parsing as a `JsonValue` tree, and a file is a
  `StoreFile`: missing, present-but-not-JSON, or present with a parsed value.
* `JSON.parse` failure (a `SyntaxError`) is the `storeCorrupt` error;
  the `Error("Vectors must have the same length")` thrown by
  `calculateCosineSimilarity` is `dimensionMismatch`; a JavaScript runtime
  `TypeError` arising from using a non-store-shaped JSON value as an
  `EmbeddingStore` is `jsTypeError`.
* The external embedding gateway (`generateEmbedding`) is an injected
  capability: retrieval takes the already-computed query embedding as an
  argument, exactly as the spec's §6 treats `embed` as an external
  collaborator.
* `Array.prototype.sort` with comparator `(a, b) => b.similarity - a.similarity`
  is a stable descending sort (ECMAScript 2019 guarantees stability); it is
  modelled by the stable insertion sort `sortDesc`.
* `Array.prototype.slice(0, end)` with a possibly negative `end` is modelled
  by `jsSlice`.
-/

/-- Parsed JSON values, as produced by `JSON.parse`. Numbers carry the real
value they denote. -/
inductive JsonValue where
  | null
  | bool (b : Bool)
  | num (x : ℝ)
  | str (s : String)
  | arr (elems : List JsonValue)
  | obj (fields : List (String × JsonValue))

/-- Record stored in the embedding store (interface `ChunkWithEmbedding` of
`lib/vector-store.ts`). The optional `metadata` bag is an arbitrary JSON
value. -/
structure ChunkWithEmbedding where
  id : String
  content : String
  embedding : List ℝ
  source : String
  metadata : Option JsonValue

/-- The persisted collection (interface `EmbeddingStore` of
`lib/vector-store.ts`). -/
structure EmbeddingStore where
  chunks : List ChunkWithEmbedding

/-- Query result record (interface `SimilarChunk` of `lib/vector-store.ts`). -/
structure SimilarChunk where
  content : String
  similarity : ℝ
  source : String
  metadata : Option JsonValue

/-- JSON serialization of one record, as `JSON.stringify` lays it out. -/
def encodeChunk (c : ChunkWithEmbedding) : JsonValue :=
  .obj ([("id", .str c.id), ("content", .str c.content),
         ("embedding", .arr (c.embedding.map JsonValue.num)),
         ("source", .str c.source)] ++
        (match c.metadata with
         | some m => [("metadata", m)]
         | none => []))

/-- JSON serialization of the whole store. -/
def encodeStore (s : EmbeddingStore) : JsonValue :=
  .obj [("chunks", .arr (s.chunks.map encodeChunk))]

/-- Property lookup on a parsed JSON object. -/
def getField (fields : List (String × JsonValue)) (k : String) : Option JsonValue :=
  match fields with
  | [] => none
  | (k', v) :: rest => if k' = k then some v else getField rest k

/-- All-or-nothing traversal of an optional-valued function over a list. -/
def mapOption (f : α → Option β) : List α → Option (List β)
  | [] => some []
  | x :: xs =>
    match f x with
    | none => none
    | some y =>
      match mapOption f xs with
      | none => none
      | some ys => some (y :: ys)

/-- Reading a JSON number. -/
def decodeNum : JsonValue → Option ℝ
  | .num x => some x
  | _ => none

/-- Reading a single record from JSON: this is the "expected record shape"
of the spec's data model (the TypeScript code itself performs no such
validation — it blindly casts the parsed value). -/
def decodeChunk : JsonValue → Option ChunkWithEmbedding
  | .obj fs =>
    match getField fs "id", getField fs "content",
          getField fs "embedding", getField fs "source" with
    | some (.str i), some (.str content), some (.arr es), some (.str src) =>
      match mapOption decodeNum es with
      | some embedding => some ⟨i, content, embedding, src, getField fs "metadata"⟩
      | none => none
    | _, _, _, _ => none
  | _ => none

/-- Reading a whole store from JSON: the "expected record-collection shape". -/
def decodeStore : JsonValue → Option EmbeddingStore
  | .obj fs =>
    match getField fs "chunks" with
    | some (.arr cs) =>
      match mapOption decodeChunk cs with
      | some chunks => some ⟨chunks⟩
      | none => none
    | _ => none
  | _ => none

/-- State of the backing file at a given path. -/
inductive StoreFile where
  | missing
  | invalid
  | valid (content : JsonValue)

/-- Errors surfaced by the store and retrieval operations. -/
inductive VSError where
  | dimensionMismatch
  | storeCorrupt
  | jsTypeError
deriving DecidableEq

/-- Function `loadEmbeddings` of `lib/vector-store.ts`: a missing file yields
the empty store object; an unparseable file makes `JSON.parse` throw
(`storeCorrupt`); otherwise the parsed JSON value is returned as-is, with no
shape validation. -/
def loadEmbeddings : StoreFile → Except VSError JsonValue
  | .missing => .ok (encodeStore ⟨[]⟩)
  | .invalid => .error .storeCorrupt
  | .valid j => .ok j

/-- Function `saveEmbeddings` of `lib/vector-store.ts`: full-file overwrite
with the serialized store. -/
def saveEmbeddings (store : EmbeddingStore) : StoreFile :=
  .valid (encodeStore store)

/-- Function `addChunks` of `lib/vector-store.ts`: load, push the new chunks
onto the loaded collection, save. Using a non-store-shaped parsed value as a
store is a JavaScript runtime `TypeError`, modelled as `jsTypeError`. -/
def addChunks (filePath : StoreFile) (chunks : List ChunkWithEmbedding) :
    Except VSError StoreFile :=
  match loadEmbeddings filePath with
  | .error e => .error e
  | .ok raw =>
    match decodeStore raw with
    | none => .error .jsTypeError
    | some store => .ok (saveEmbeddings ⟨store.chunks ++ chunks⟩)

/-- Iterated `addChunks`: the store states reachable by a sequence of append
operations, starting from a given file state. -/
def appendAll (filePath : StoreFile) : List (List ChunkWithEmbedding) →
    Except VSError StoreFile
  | [] => .ok filePath
  | b :: bs =>
    match addChunks filePath b with
    | .error e => .error e
    | .ok f' => appendAll f' bs

/-- Leading-whitespace removal on character lists. -/
def trimLeftChars : List Char → List Char
  | [] => []
  | c :: cs => if c.isWhitespace then trimLeftChars cs else c :: cs

/-- Model of JavaScript `String.prototype.trim`: strip whitespace from both
ends. -/
def jsTrim (s : String) : String :=
  ⟨(trimLeftChars (trimLeftChars s.data.reverse).reverse)⟩

/-- Splitting a character list at every occurrence of a separator character;
adjacent, leading and trailing separators produce empty pieces, and the empty
list yields one empty piece, exactly as JavaScript `split`. -/
def splitChars (sep : Char) : List Char → List (List Char)
  | [] => [[]]
  | c :: cs =>
    match splitChars sep cs with
    | h :: t => if c = sep then [] :: h :: t else (c :: h) :: t
    | [] => [[c]]

/-- Model of JavaScript `String.prototype.split` with a one-character
separator string. -/
def jsSplit (s : String) (sep : Char) : List String :=
  (splitChars sep s.data).map List.asString

/-- Function `generateChunks` of `lib/ai/embedding.ts` (source reproduced in
`guide/02-rag-part2-chunking.md`):
`input.trim().split(".").filter(i => i !== "").map(chunk => chunk.trim())`.
Note the order: the filter removes pieces that are exactly the empty string,
and only afterwards is each surviving piece trimmed. -/
def generateChunks (input : String) : List String :=
  ((jsSplit (jsTrim input) '.').filter (fun i => i != "")).map (fun chunk => jsTrim chunk)

/-- Dot-product loop of `calculateCosineSimilarity`:
`for i: dotProduct += vecA[i] * vecB[i]` (only reached when the lengths are
equal). -/
def dotProduct : List ℝ → List ℝ → ℝ
  | a :: as, b :: bs => a * b + dotProduct as bs
  | _, _ => 0

/-- Magnitude accumulation loop of `calculateCosineSimilarity`:
`magnitudeA += vecA[i] * vecA[i]` before the square root is taken. -/
def sumSq : List ℝ → ℝ
  | [] => 0
  | x :: xs => x * x + sumSq xs

/-- Function `calculateCosineSimilarity` of `lib/ai/embedding.ts` (source
reproduced in `guide/02-rag-part4-similarity.md`): length guard, dot product,
the two magnitudes via `Math.sqrt`, the zero-magnitude guard returning `0`,
and the final quotient. -/
noncomputable def calculateCosineSimilarity (vecA vecB : List ℝ) :
    Except VSError ℝ :=
  if vecA.length ≠ vecB.length then .error .dimensionMismatch
  else
    let dot := dotProduct vecA vecB
    let magnitudeA := Real.sqrt (sumSq vecA)
    let magnitudeB := Real.sqrt (sumSq vecB)
    if magnitudeA = 0 ∨ magnitudeB = 0 then .ok 0
    else .ok (dot / (magnitudeA * magnitudeB))

/-- Value computed by `calculateCosineSimilarity` once the length guard has
passed (proof-layer abbreviation; see `calculateCosineSimilarity_ok`). -/
noncomputable def cosineVal (a b : List ℝ) : ℝ :=
  if Real.sqrt (sumSq a) = 0 ∨ Real.sqrt (sumSq b) = 0 then 0
  else dotProduct a b / (Real.sqrt (sumSq a) * Real.sqrt (sumSq b))

/-- Projection of a stored chunk to a scored result, as built inside
`findRelevantContent`'s `map`. -/
noncomputable def toSimilar (queryEmbedding : List ℝ) (c : ChunkWithEmbedding) :
    SimilarChunk :=
  { content := c.content
    similarity := cosineVal queryEmbedding c.embedding
    source := c.source
    metadata := c.metadata }

/-- Stable descending insertion step: the new element goes in front of the
first element whose similarity is not larger, so an element keeps its place
in front of later-inserted elements with equal similarity. This models the
ECMAScript stable `sort` with comparator `(a, b) => b.similarity - a.similarity`. -/
noncomputable def insertDesc (x : SimilarChunk) : List SimilarChunk → List SimilarChunk
  | [] => [x]
  | y :: ys =>
    if x.similarity ≥ y.similarity then x :: y :: ys
    else y :: insertDesc x ys

/-- Stable sort by similarity descending (model of the JavaScript `sort`). -/
noncomputable def sortDesc : List SimilarChunk → List SimilarChunk
  | [] => []
  | x :: xs => insertDesc x (sortDesc xs)

/-- Model of `Array.prototype.slice(0, end)`: a negative `end` counts back
from the end of the array (`max(length + end, 0)`). -/
def jsSlice (l : List α) (endIdx : Int) : List α :=
  if endIdx < 0 then l.take (l.length - endIdx.natAbs)
  else l.take endIdx.toNat

/-- Model of `Array.prototype.map` with a callback that can throw: the first
exception aborts the whole traversal. -/
def mapExcept (f : α → Except ε β) : List α → Except ε (List β)
  | [] => .ok []
  | x :: xs =>
    match f x with
    | .error e => .error e
    | .ok y =>
      match mapExcept f xs with
      | .error e => .error e
      | .ok ys => .ok (y :: ys)

/-- Function `findRelevantContent` of `lib/vector-store.ts`. The query
embedding produced by the external `generateEmbedding` gateway is taken as
an argument (spec §6 treats `embed` as an injected capability). Steps, in
source order: load the store; score every chunk with
`calculateCosineSimilarity` (a throw aborts the whole call); filter by
`similarity > threshold`; stable-sort descending; `slice(0, topK)`. -/
noncomputable def findRelevantContent (filePath : StoreFile)
    (queryEmbedding : List ℝ) (threshold : ℝ) (topK : Int) :
    Except VSError (List SimilarChunk) :=
  match loadEmbeddings filePath with
  | .error e => .error e
  | .ok raw =>
    match decodeStore raw with
    | none => .error .jsTypeError
    | some store =>
      match mapExcept (fun chunk =>
          match calculateCosineSimilarity queryEmbedding chunk.embedding with
          | .error e => .error e
          | .ok sim => .ok { content := chunk.content, similarity := sim,
                             source := chunk.source, metadata := chunk.metadata
                             : SimilarChunk }) store.chunks with
      | .error e => .error e
      | .ok similarities =>
        .ok (jsSlice (sortDesc (similarities.filter
              (fun c => decide (c.similarity > threshold)))) topK)

/-! ### Round-trip and characterization lemmas -/

theorem mapOption_decodeNum_map (l : List ℝ) :
    mapOption decodeNum (l.map JsonValue.num) = some l := by
  induction l with
  | nil => rfl
  | cons x xs ih => simp [mapOption, decodeNum, ih]

theorem decodeChunk_encodeChunk (c : ChunkWithEmbedding) :
    decodeChunk (encodeChunk c) = some c := by
  obtain ⟨i, content, emb, src, md⟩ := c
  cases md <;>
    simp [encodeChunk, decodeChunk, getField, mapOption_decodeNum_map]

theorem decodeStore_encodeStore (s : EmbeddingStore) :
    decodeStore (encodeStore s) = some s := by
  obtain ⟨chunks⟩ := s
  have h : mapOption decodeChunk (chunks.map encodeChunk) = some chunks := by
    induction chunks with
    | nil => rfl
    | cons c cs ih => simp [mapOption, decodeChunk_encodeChunk, ih]
  simp [encodeStore, decodeStore, getField, h]

theorem calculateCosineSimilarity_ok (a b : List ℝ) (h : a.length = b.length) :
    calculateCosineSimilarity a b = .ok (cosineVal a b) := by
  simp only [calculateCosineSimilarity, cosineVal, h, ne_eq, not_true_eq_false,
    if_false]
  split <;> rfl

theorem mapExcept_ok_map (f : α → Except ε β) (g : α → β) (l : List α)
    (h : ∀ a ∈ l, f a = .ok (g a)) : mapExcept f l = .ok (l.map g) := by
  induction l with
  | nil => rfl
  | cons x xs ih =>
    simp [mapExcept, h x (by simp), ih (fun a ha => h a (by simp [ha]))]

theorem mapExcept_error (f : α → Except ε β) (e : ε) (l : List α)
    (hall : ∀ a ∈ l, f a = .error e ∨ ∃ b, f a = .ok b)
    (hbad : ∃ a ∈ l, f a = .error e) : mapExcept f l = .error e := by
  induction l with
  | nil => simp at hbad
  | cons x xs ih =>
    rcases hall x (by simp) with hx | ⟨b, hb⟩
    · simp [mapExcept, hx]
    · have hxs : ∃ a ∈ xs, f a = .error e := by
        rcases hbad with ⟨a, ha, hae⟩
        rcases List.mem_cons.mp ha with rfl | ha'
        · rw [hb] at hae; cases hae
        · exact ⟨a, ha', hae⟩
      simp [mapExcept, hb, ih (fun a ha => hall a (by simp [ha])) hxs]

theorem findRelevantContent_ok (s : EmbeddingStore) (q : List ℝ) (t : ℝ) (k : Int)
    (hlen : ∀ c ∈ s.chunks, c.embedding.length = q.length) :
    findRelevantContent (saveEmbeddings s) q t k =
      .ok (jsSlice (sortDesc ((s.chunks.map (toSimilar q)).filter
        (fun c => decide (c.similarity > t)))) k) := by
  have hmap : mapExcept (fun chunk =>
      match calculateCosineSimilarity q chunk.embedding with
      | .error e => .error e
      | .ok sim => .ok { content := chunk.content, similarity := sim,
                         source := chunk.source, metadata := chunk.metadata
                         : SimilarChunk }) s.chunks = .ok (s.chunks.map (toSimilar q)) := by
    refine mapExcept_ok_map _ _ _ (fun c hc => ?_)
    rw [calculateCosineSimilarity_ok q c.embedding (hlen c hc).symm]
    rfl
  unfold findRelevantContent
  simp only [show loadEmbeddings (saveEmbeddings s) = .ok (encodeStore s) from rfl,
    decodeStore_encodeStore, hmap]

/-! ### Sorting lemmas: permutation, order, stability -/

theorem insertDesc_perm (x : SimilarChunk) (l : List SimilarChunk) :
    (insertDesc x l).Perm (x :: l) := by
  induction l with
  | nil => simp [insertDesc]
  | cons y ys ih =>
    by_cases h : x.similarity ≥ y.similarity
    · simp [insertDesc, h]
    · simp only [insertDesc, if_neg h]
      exact (ih.cons y).trans (List.Perm.swap x y ys)

theorem sortDesc_perm (l : List SimilarChunk) : (sortDesc l).Perm l := by
  induction l with
  | nil => simp [sortDesc]
  | cons x xs ih =>
    exact (insertDesc_perm x (sortDesc xs)).trans (ih.cons x)

theorem insertDesc_sorted (x : SimilarChunk) (l : List SimilarChunk)
    (hl : List.Sorted (fun a b => b.similarity ≤ a.similarity) l) :
    List.Sorted (fun a b => b.similarity ≤ a.similarity) (insertDesc x l) := by
  induction l with
  | nil => simp [insertDesc]
  | cons y ys ih =>
    rw [List.sorted_cons] at hl
    obtain ⟨hy, hys⟩ := hl
    by_cases h : x.similarity ≥ y.similarity
    · simp only [insertDesc, if_pos h]
      rw [List.sorted_cons]
      refine ⟨fun z hz => ?_, ?_⟩
      · rcases List.mem_cons.mp hz with rfl | hz'
        · exact h
        · exact le_trans (hy z hz') h
      · rw [List.sorted_cons]; exact ⟨hy, hys⟩
    · simp only [insertDesc, if_neg h]
      rw [List.sorted_cons]
      refine ⟨fun z hz => ?_, ih hys⟩
      rcases List.mem_cons.mp ((insertDesc_perm x ys).mem_iff.mp hz) with rfl | hz'
      · exact le_of_lt (lt_of_not_ge h)
      · exact hy z hz'

theorem sortDesc_sorted (l : List SimilarChunk) :
    List.Sorted (fun a b => b.similarity ≤ a.similarity) (sortDesc l) := by
  induction l with
  | nil => simp [sortDesc]
  | cons x xs ih => exact insertDesc_sorted x (sortDesc xs) ih

theorem insertDesc_filter_ne (x : SimilarChunk) (l : List SimilarChunk) (v : ℝ)
    (hx : x.similarity ≠ v) :
    (insertDesc x l).filter (fun c => decide (c.similarity = v)) =
      l.filter (fun c => decide (c.similarity = v)) := by
  induction l with
  | nil => simp [insertDesc, hx]
  | cons y ys ih =>
    by_cases h : x.similarity ≥ y.similarity
    · simp [insertDesc, h, List.filter_cons, hx]
    · simp only [insertDesc, if_neg h]
      simp [List.filter_cons, ih]

theorem insertDesc_filter_eq (x : SimilarChunk) (l : List SimilarChunk) (v : ℝ)
    (hx : x.similarity = v) :
    (insertDesc x l).filter (fun c => decide (c.similarity = v)) =
      x :: l.filter (fun c => decide (c.similarity = v)) := by
  induction l with
  | nil => simp [insertDesc, hx]
  | cons y ys ih =>
    by_cases h : x.similarity ≥ y.similarity
    · simp only [insertDesc, if_pos h]
      simp [List.filter_cons, hx]
    · have hy : y.similarity ≠ v := by
        intro hyv
        exact h (le_of_eq (hyv.trans hx.symm))
      simp only [insertDesc, if_neg h]
      simp [List.filter_cons, hy, ih]

theorem sortDesc_filter_eq (l : List SimilarChunk) (v : ℝ) :
    (sortDesc l).filter (fun c => decide (c.similarity = v)) =
      l.filter (fun c => decide (c.similarity = v)) := by
  induction l with
  | nil => simp [sortDesc]
  | cons x xs ih =>
    by_cases hx : x.similarity = v
    · simp only [sortDesc]
      rw [insertDesc_filter_eq x (sortDesc xs) v hx, ih]
      simp [List.filter_cons, hx]
    · simp only [sortDesc]
      rw [insertDesc_filter_ne x (sortDesc xs) v hx, ih]
      simp [List.filter_cons, hx]

theorem filter_take_exists (p : α → Bool) (l : List α) (n : ℕ) :
    ∃ m, (l.take n).filter p = (l.filter p).take m := by
  induction l generalizing n with
  | nil => exact ⟨0, by simp⟩
  | cons x xs ih =>
    cases n with
    | zero => exact ⟨0, by simp⟩
    | succ n' =>
      obtain ⟨m, hm⟩ := ih n'
      by_cases hx : p x
      · exact ⟨m + 1, by simp [List.take_succ_cons, List.filter_cons, hx, hm]⟩
      · exact ⟨m, by simp [List.take_succ_cons, List.filter_cons, hx, hm]⟩

theorem jsSlice_eq_take (l : List α) (k : Int) : ∃ n, jsSlice l k = l.take n := by
  unfold jsSlice
  split
  · exact ⟨l.length - k.natAbs, rfl⟩
  · exact ⟨k.toNat, rfl⟩

theorem jsSlice_of_nonneg (l : List α) (k : Int) (hk : 0 ≤ k) :
    jsSlice l k = l.take k.toNat := by
  unfold jsSlice
  rw [if_neg (by omega)]

/-! ### Numeric lemmas for the similarity function -/

theorem sumSq_nonneg (l : List ℝ) : 0 ≤ sumSq l := by
  induction l with
  | nil => simp [sumSq]
  | cons x xs ih => simp only [sumSq]; nlinarith [mul_self_nonneg x]

theorem dotProduct_sq_le (a b : List ℝ) (h : a.length = b.length) :
    (dotProduct a b) ^ 2 ≤ sumSq a * sumSq b := by
  induction a generalizing b with
  | nil =>
    cases b with
    | nil => simp [dotProduct, sumSq]
    | cons y ys => simp at h
  | cons x xs ih =>
    cases b with
    | nil => simp at h
    | cons y ys =>
      have h' : xs.length = ys.length := by simpa using h
      have hD := ih ys h'
      have hSA := sumSq_nonneg xs
      have hSB := sumSq_nonneg ys
      have hG : 0 ≤ sumSq xs * sumSq ys - (dotProduct xs ys) ^ 2 := by linarith
      have hu : 0 ≤ x ^ 2 * sumSq ys + y ^ 2 * sumSq xs := by positivity
      have hsq : (2 * x * y * dotProduct xs ys) ^ 2 ≤
          (x ^ 2 * sumSq ys + y ^ 2 * sumSq xs) ^ 2 := by
        nlinarith [sq_nonneg (x ^ 2 * sumSq ys - y ^ 2 * sumSq xs),
          mul_nonneg (sq_nonneg (x * y)) hG]
      have hle : 2 * x * y * dotProduct xs ys ≤
          x ^ 2 * sumSq ys + y ^ 2 * sumSq xs := by
        nlinarith [hsq, hu]
      simp only [dotProduct, sumSq]
      nlinarith [hle, hG]

theorem abs_dotProduct_le (a b : List ℝ) (h : a.length = b.length) :
    |dotProduct a b| ≤ Real.sqrt (sumSq a) * Real.sqrt (sumSq b) := by
  have h1 : (dotProduct a b) ^ 2 ≤ sumSq a * sumSq b := dotProduct_sq_le a b h
  have h2 : Real.sqrt ((dotProduct a b) ^ 2) ≤ Real.sqrt (sumSq a * sumSq b) :=
    Real.sqrt_le_sqrt h1
  rw [Real.sqrt_sq_eq_abs, Real.sqrt_mul (sumSq_nonneg a)] at h2
  exact h2

/-! ### Claim theorems -/

/-- C1: for every stored collection and every query embedding (with matching
dimensions), `findRelevantContent` includes a record in its result only if
its cosine similarity to the query embedding is strictly greater than the
threshold (so a record whose similarity equals the threshold exactly is
excluded), and when `topK` is at least the number of stored records the
result consists of exactly the scored records whose similarity strictly
exceeds the threshold. -/
theorem c1_threshold_strict (s : EmbeddingStore) (q : List ℝ) (t : ℝ) (k : Int)
    (hlen : ∀ c ∈ s.chunks, c.embedding.length = q.length) :
    ∃ res, findRelevantContent (saveEmbeddings s) q t k = .ok res ∧
      (∀ r ∈ res, r.similarity > t) ∧
      ((s.chunks.length : Int) ≤ k →
        res.Perm ((s.chunks.map (toSimilar q)).filter
          (fun c => decide (c.similarity > t)))) := by
  refine ⟨_, findRelevantContent_ok s q t k hlen, ?_, ?_⟩
  · intro r hr
    obtain ⟨n, hn⟩ := jsSlice_eq_take (sortDesc ((s.chunks.map (toSimilar q)).filter
      (fun c => decide (c.similarity > t)))) k
    rw [hn] at hr
    have hr' := (sortDesc_perm _).mem_iff.mp (List.take_subset n _ hr)
    exact of_decide_eq_true (List.mem_filter.mp hr').2
  · intro hk
    have hk0 : 0 ≤ k := le_trans (by positivity) hk
    rw [jsSlice_of_nonneg _ k hk0]
    have hfle : ((s.chunks.map (toSimilar q)).filter
        (fun c => decide (c.similarity > t))).length ≤ k.toNat := by
      have h1 : ((s.chunks.map (toSimilar q)).filter
          (fun c => decide (c.similarity > t))).length ≤ s.chunks.length := by
        calc _ ≤ (s.chunks.map (toSimilar q)).length := List.length_filter_le _ _
          _ = s.chunks.length := List.length_map _ _
      omega
    have hsle : (sortDesc ((s.chunks.map (toSimilar q)).filter
        (fun c => decide (c.similarity > t)))).length ≤ k.toNat := by
      rwa [(sortDesc_perm _).length_eq]
    rw [List.take_of_length_le hsle]
    exact sortDesc_perm _

/-- Witness for C1 at a concrete one-record store and query. -/
theorem c1_threshold_strict_witness :
    ∃ res, findRelevantContent
        (saveEmbeddings ⟨[⟨"c0", "alpha", [1, 0], "src", none⟩]⟩)
        [1, 0] (1 / 2) 4 = .ok res ∧
      (∀ r ∈ res, r.similarity > 1 / 2) ∧
      ((([⟨"c0", "alpha", [1, 0], "src", none⟩] :
          List ChunkWithEmbedding).length : Int) ≤ 4 →
        res.Perm ((([⟨"c0", "alpha", [1, 0], "src", none⟩] :
            List ChunkWithEmbedding).map (toSimilar [1, 0])).filter
          (fun c => decide (c.similarity > 1 / 2)))) :=
  c1_threshold_strict ⟨[⟨"c0", "alpha", [1, 0], "src", none⟩]⟩ [1, 0] (1 / 2) 4
    (by intro c hc; rw [List.mem_singleton] at hc; subst hc; rfl)

/-- C2: the result sequence of `findRelevantContent` is sorted by similarity
in descending order; records with exactly equal similarity appear in store
insertion order (the equal-similarity subsequence of the result is an
initial segment of the equal-similarity subsequence of the scored store,
which is in insertion order); and for every `topK ≥ 0` the result is the
first `topK` entries of the sorted filtered sequence, hence has length at
most `topK`. -/
theorem c2_sorted_stable_topk (s : EmbeddingStore) (q : List ℝ) (t : ℝ) (k : Int)
    (hlen : ∀ c ∈ s.chunks, c.embedding.length = q.length) :
    ∃ res, findRelevantContent (saveEmbeddings s) q t k = .ok res ∧
      List.Sorted (fun a b => b.similarity ≤ a.similarity) res ∧
      (∀ v : ℝ, ∃ m, res.filter (fun c => decide (c.similarity = v)) =
        (((s.chunks.map (toSimilar q)).filter
            (fun c => decide (c.similarity > t))).filter
          (fun c => decide (c.similarity = v))).take m) ∧
      (0 ≤ k →
        res = (sortDesc ((s.chunks.map (toSimilar q)).filter
          (fun c => decide (c.similarity > t)))).take k.toNat ∧
        (res.length : Int) ≤ k) := by
  refine ⟨_, findRelevantContent_ok s q t k hlen, ?_, ?_, ?_⟩
  · obtain ⟨n, hn⟩ := jsSlice_eq_take (sortDesc ((s.chunks.map (toSimilar q)).filter
      (fun c => decide (c.similarity > t)))) k
    rw [hn]
    exact List.Pairwise.sublist (List.take_sublist n _) (sortDesc_sorted _)
  · intro v
    obtain ⟨n, hn⟩ := jsSlice_eq_take (sortDesc ((s.chunks.map (toSimilar q)).filter
      (fun c => decide (c.similarity > t)))) k
    rw [hn]
    obtain ⟨m, hm⟩ := filter_take_exists (fun c => decide (c.similarity = v))
      (sortDesc ((s.chunks.map (toSimilar q)).filter
        (fun c => decide (c.similarity > t)))) n
    rw [sortDesc_filter_eq] at hm
    exact ⟨m, hm⟩
  · intro hk
    rw [jsSlice_of_nonneg _ k hk]
    refine ⟨rfl, ?_⟩
    have := List.length_take_le k.toNat (sortDesc ((s.chunks.map (toSimilar q)).filter
      (fun c => decide (c.similarity > t))))
    omega

/-- Witness for C2 at a concrete one-record store and query. -/
theorem c2_sorted_stable_topk_witness :
    ∃ res, findRelevantContent
        (saveEmbeddings ⟨[⟨"c0", "alpha", [1, 0], "src", none⟩]⟩)
        [1, 0] (1 / 2) 2 = .ok res ∧
      List.Sorted (fun a b => b.similarity ≤ a.similarity) res ∧
      (∀ v : ℝ, ∃ m, res.filter (fun c => decide (c.similarity = v)) =
        (((([⟨"c0", "alpha", [1, 0], "src", none⟩] :
            List ChunkWithEmbedding).map (toSimilar [1, 0])).filter
            (fun c => decide (c.similarity > 1 / 2))).filter
          (fun c => decide (c.similarity = v))).take m) ∧
      (0 ≤ (2 : Int) →
        res = (sortDesc ((([⟨"c0", "alpha", [1, 0], "src", none⟩] :
            List ChunkWithEmbedding).map (toSimilar [1, 0])).filter
          (fun c => decide (c.similarity > 1 / 2)))).take (2 : Int).toNat ∧
        (res.length : Int) ≤ 2) :=
  c2_sorted_stable_topk ⟨[⟨"c0", "alpha", [1, 0], "src", none⟩]⟩ [1, 0] (1 / 2) 2
    (by intro c hc; rw [List.mem_singleton] at hc; subst hc; rfl)

/-- C3: `calculateCosineSimilarity` on two vectors of different lengths fails
with the dimension-mismatch error (never truncating or padding), and a
`findRelevantContent` call over a store containing any record whose
embedding length differs from the query embedding's length fails as a whole
operation with that same error rather than skipping the record. -/
theorem c3_dimension_mismatch :
    (∀ (a b : List ℝ), a.length ≠ b.length →
      calculateCosineSimilarity a b = .error .dimensionMismatch) ∧
    (∀ (s : EmbeddingStore) (q : List ℝ) (t : ℝ) (k : Int),
      (∃ c ∈ s.chunks, c.embedding.length ≠ q.length) →
      findRelevantContent (saveEmbeddings s) q t k = .error .dimensionMismatch) := by
  have hcalc : ∀ (a b : List ℝ), a.length ≠ b.length →
      calculateCosineSimilarity a b = .error .dimensionMismatch := by
    intro a b h
    simp [calculateCosineSimilarity, h]
  refine ⟨hcalc, fun s q t k hbad => ?_⟩
  have hmap : mapExcept (fun chunk =>
      match calculateCosineSimilarity q chunk.embedding with
      | .error e => .error e
      | .ok sim => .ok { content := chunk.content, similarity := sim,
                         source := chunk.source, metadata := chunk.metadata
                         : SimilarChunk }) s.chunks = .error .dimensionMismatch := by
    refine mapExcept_error _ _ _ (fun c _ => ?_) ?_
    · by_cases hc : c.embedding.length = q.length
      · right
        exact ⟨_, by rw [calculateCosineSimilarity_ok q c.embedding hc.symm]⟩
      · left
        rw [hcalc q c.embedding (fun he => hc he.symm)]
    · obtain ⟨c, hcm, hcl⟩ := hbad
      refine ⟨c, hcm, ?_⟩
      rw [hcalc q c.embedding (fun he => hcl he.symm)]
  unfold findRelevantContent
  simp only [show loadEmbeddings (saveEmbeddings s) = .ok (encodeStore s) from rfl,
    decodeStore_encodeStore, hmap]

/-- Witness for C3: a length-1 vector against a length-2 vector, and a store
holding a 2-dimensional embedding queried with a 1-dimensional embedding. -/
theorem c3_dimension_mismatch_witness :
    calculateCosineSimilarity [1] [1, 2] = .error .dimensionMismatch ∧
    findRelevantContent (saveEmbeddings ⟨[⟨"c0", "alpha", [1, 2], "src", none⟩]⟩)
      [1] 0 4 = .error .dimensionMismatch :=
  ⟨c3_dimension_mismatch.1 [1] [1, 2] (by decide),
   c3_dimension_mismatch.2 ⟨[⟨"c0", "alpha", [1, 2], "src", none⟩]⟩ [1] 0 4
     ⟨⟨"c0", "alpha", [1, 2], "src", none⟩, by simp, by decide⟩⟩

/-- C4 counterexample: the claim says every output piece is a non-empty
trimmed string and that pieces empty after trimming are discarded, but
`generateChunks` filters out only pieces that are exactly the empty string
BEFORE trimming, so the whitespace-only middle piece of `"a. . b"` survives
the filter and becomes the empty string `""` in the output. -/
theorem c4_counterexample :
    generateChunks "a. . b" = ["a", "", "b"] ∧ "" ∈ generateChunks "a. . b" := by
  constructor <;> decide

/-- C4 amended: `generateChunks` splits the trimmed input on the period,
discards pieces that are exactly empty, then trims each surviving piece.
Provided no split piece is whitespace-only-but-non-empty, this coincides
with the claimed trim-then-discard pipeline and every output element is
non-empty. -/
theorem c4_chunks_amended (input : String)
    (hws : ∀ p ∈ jsSplit (jsTrim input) '.', jsTrim p = "" → p = "") :
    generateChunks input =
      ((jsSplit (jsTrim input) '.').map (fun chunk => jsTrim chunk)).filter
        (fun i => i != "") ∧
    ∀ c ∈ generateChunks input, c ≠ "" := by
  have key : ∀ (L : List String), (∀ p ∈ L, jsTrim p = "" → p = "") →
      (L.filter (fun i => i != "")).map (fun chunk => jsTrim chunk) =
        (L.map (fun chunk => jsTrim chunk)).filter (fun i => i != "") := by
    intro L hL
    induction L with
    | nil => rfl
    | cons p ps ih =>
      have hps := ih (fun a ha h => hL a (List.mem_cons_of_mem p ha) h)
      by_cases hp : p = ""
      · subst hp
        simpa [List.filter_cons] using hps
      · have hpt : jsTrim p ≠ "" := fun h => hp (hL p (List.mem_cons_self p ps) h)
        simp [List.filter_cons, hp, hpt, hps]
  have h1 : generateChunks input =
      ((jsSplit (jsTrim input) '.').map (fun chunk => jsTrim chunk)).filter
        (fun i => i != "") := key _ hws
  refine ⟨h1, fun c hc => ?_⟩
  rw [h1] at hc
  simpa using (List.mem_filter.mp hc).2

/-- Witness for C4 amended: a two-sentence input with no whitespace-only
pieces. -/
theorem c4_chunks_amended_witness :
    generateChunks "SS304 has chromium. SS316 differs." =
      ((jsSplit (jsTrim "SS304 has chromium. SS316 differs.") '.').map
        (fun chunk => jsTrim chunk)).filter (fun i => i != "") ∧
    ∀ c ∈ generateChunks "SS304 has chromium. SS316 differs.", c ≠ "" :=
  c4_chunks_amended "SS304 has chromium. SS316 differs." (by decide)

/-- C5: appending with `addChunks` to any prior persisted store state (a
well-formed store file, or a missing one, which loads as the empty store)
is the read-modify-write `saveAll(loadAll() ++ new)`, and loading the
resulting file yields exactly the previous records followed by the new ones
in insertion order. -/
theorem c5_append_roundtrip (f : StoreFile) (s : EmbeddingStore)
    (new : List ChunkWithEmbedding)
    (hload : loadEmbeddings f = .ok (encodeStore s)) :
    addChunks f new = .ok (saveEmbeddings ⟨s.chunks ++ new⟩) ∧
    loadEmbeddings (saveEmbeddings ⟨s.chunks ++ new⟩) =
      .ok (encodeStore ⟨s.chunks ++ new⟩) ∧
    decodeStore (encodeStore ⟨s.chunks ++ new⟩) = some ⟨s.chunks ++ new⟩ := by
  refine ⟨?_, rfl, decodeStore_encodeStore _⟩
  unfold addChunks
  rw [hload]
  simp [decodeStore_encodeStore]

/-- Witness for C5: appending one record to a missing (empty) store file. -/
theorem c5_append_roundtrip_witness :
    addChunks .missing [⟨"c0", "alpha", [1, 0], "src", none⟩] =
      .ok (saveEmbeddings ⟨([] : List ChunkWithEmbedding) ++
        [⟨"c0", "alpha", [1, 0], "src", none⟩]⟩) ∧
    loadEmbeddings (saveEmbeddings ⟨([] : List ChunkWithEmbedding) ++
        [⟨"c0", "alpha", [1, 0], "src", none⟩]⟩) =
      .ok (encodeStore ⟨([] : List ChunkWithEmbedding) ++
        [⟨"c0", "alpha", [1, 0], "src", none⟩]⟩) ∧
    decodeStore (encodeStore ⟨([] : List ChunkWithEmbedding) ++
        [⟨"c0", "alpha", [1, 0], "src", none⟩]⟩) =
      some ⟨([] : List ChunkWithEmbedding) ++ [⟨"c0", "alpha", [1, 0], "src", none⟩]⟩ :=
  c5_append_roundtrip .missing ⟨[]⟩ [⟨"c0", "alpha", [1, 0], "src", none⟩] rfl

/-- C6 counterexample: the file `5` (valid JSON, present) cannot be parsed
into the expected record-collection shape, yet `loadEmbeddings` returns it
successfully instead of failing with the store-corrupt error — refuting the
claim's "fails exactly when the file exists but cannot be parsed into the
expected record-collection shape". -/
theorem c6_counterexample :
    loadEmbeddings (.valid (.num 5)) = .ok (.num 5) ∧
    decodeStore (.num 5) = none :=
  ⟨rfl, rfl⟩

/-- C6 amended: `loadEmbeddings` returns the empty collection (success) when
the backing file does not exist, and fails — with the store-corrupt error,
distinguishable from the missing-file case — exactly when the file exists
but is not parseable as JSON at all; a present file containing valid JSON is
returned without any validation of its shape. -/
theorem c6_load_amended :
    loadEmbeddings .missing = .ok (encodeStore ⟨[]⟩) ∧
    (∀ f : StoreFile, loadEmbeddings f = .error .storeCorrupt ↔ f = .invalid) ∧
    (∀ (f : StoreFile) (e : VSError), loadEmbeddings f = .error e →
      e = .storeCorrupt) ∧
    (∀ j : JsonValue, loadEmbeddings (.valid j) = .ok j) := by
  refine ⟨rfl, fun f => ?_, fun f e h => ?_, fun j => rfl⟩
  · cases f <;> simp [loadEmbeddings]
  · cases f <;> simp [loadEmbeddings] at h ⊢
    exact h.symm

/-- Witness for C6 amended: an unparseable file fails with the store-corrupt
error. -/
theorem c6_load_amended_witness :
    loadEmbeddings .invalid = .error .storeCorrupt :=
  (c6_load_amended.2.1 .invalid).mpr rfl

/-- C7: for every pair of equal-length vectors with non-zero Euclidean norm
(equivalently, non-zero sum of squares), `calculateCosineSimilarity`
succeeds and its value lies in `[-1, 1]`, by the Cauchy–Schwarz inequality
(exact-real model of the floating-point computation). -/
theorem c7_cosine_bounds (a b : List ℝ) (hlen : a.length = b.length)
    (ha : sumSq a ≠ 0) (hb : sumSq b ≠ 0) :
    ∃ r, calculateCosineSimilarity a b = .ok r ∧ -1 ≤ r ∧ r ≤ 1 := by
  have hA : 0 < Real.sqrt (sumSq a) :=
    Real.sqrt_pos.mpr (lt_of_le_of_ne (sumSq_nonneg a) (Ne.symm ha))
  have hB : 0 < Real.sqrt (sumSq b) :=
    Real.sqrt_pos.mpr (lt_of_le_of_ne (sumSq_nonneg b) (Ne.symm hb))
  have hM : 0 < Real.sqrt (sumSq a) * Real.sqrt (sumSq b) := mul_pos hA hB
  refine ⟨cosineVal a b, calculateCosineSimilarity_ok a b hlen, ?_⟩
  have hcv : cosineVal a b =
      dotProduct a b / (Real.sqrt (sumSq a) * Real.sqrt (sumSq b)) := by
    unfold cosineVal
    rw [if_neg]
    push_neg
    exact ⟨ne_of_gt hA, ne_of_gt hB⟩
  rw [hcv]
  have habs : |dotProduct a b / (Real.sqrt (sumSq a) * Real.sqrt (sumSq b))| ≤ 1 := by
    rw [abs_div, abs_of_pos hM, div_le_one hM]
    exact abs_dotProduct_le a b hlen
  exact abs_le.mp habs

/-- Witness for C7 on two concrete non-zero 2-dimensional vectors. -/
theorem c7_cosine_bounds_witness :
    ∃ r, calculateCosineSimilarity [1, 0] [0, 1] = .ok r ∧ -1 ≤ r ∧ r ≤ 1 :=
  c7_cosine_bounds [1, 0] [0, 1] rfl (by norm_num [sumSq]) (by norm_num [sumSq])

/-- C8: for every pair of equal-length vectors in which either vector's
Euclidean norm (equivalently, sum of squares) is exactly zero,
`calculateCosineSimilarity` returns `0` — a defined degenerate result, not
an error, with no division by zero. -/
theorem c8_zero_norm (a b : List ℝ) (hlen : a.length = b.length)
    (h : sumSq a = 0 ∨ sumSq b = 0) :
    calculateCosineSimilarity a b = .ok 0 := by
  rw [calculateCosineSimilarity_ok a b hlen]
  have hz : Real.sqrt (sumSq a) = 0 ∨ Real.sqrt (sumSq b) = 0 := by
    rcases h with h | h
    · left; rw [h, Real.sqrt_zero]
    · right; rw [h, Real.sqrt_zero]
  unfold cosineVal
  rw [if_pos hz]

/-- Witness for C8: the zero vector against a non-zero vector. -/
theorem c8_zero_norm_witness :
    calculateCosineSimilarity [0, 0] [3, 4] = .ok 0 :=
  c8_zero_norm [0, 0] [3, 4] rfl (Or.inl (by norm_num [sumSq]))

/-- C9 counterexample: a call with threshold `2` (outside `[-1, 1]`) and
negative `topK` succeeds with an ordinary (empty) result instead of being
rejected with an invalid-input error, refuting the claim that
`findRelevantContent` validates these inputs. -/
theorem c9_counterexample :
    findRelevantContent .missing [1] 2 (-1) = .ok [] := rfl

/-- C9 amended: `findRelevantContent` performs no input validation at all:
for every query embedding, every threshold (inside or outside `[-1, 1]`) and
every integer `topK` (negative values included, which JavaScript `slice`
interprets as an offset from the end), the call proceeds with the
filter/sort/truncate pipeline and never produces an input-validation
error. -/
theorem c9_no_input_validation (s : EmbeddingStore) (q : List ℝ) (t : ℝ)
    (k : Int) (hlen : ∀ c ∈ s.chunks, c.embedding.length = q.length) :
    findRelevantContent (saveEmbeddings s) q t k =
      .ok (jsSlice (sortDesc ((s.chunks.map (toSimilar q)).filter
        (fun c => decide (c.similarity > t)))) k) :=
  findRelevantContent_ok s q t k hlen

/-- Witness for C9 amended, with threshold `2` outside `[-1, 1]` and
`topK = -1` negative. -/
theorem c9_no_input_validation_witness :
    findRelevantContent (saveEmbeddings ⟨[⟨"c0", "alpha", [1, 0], "src", none⟩]⟩)
        [1, 0] 2 (-1) =
      .ok (jsSlice (sortDesc ((([⟨"c0", "alpha", [1, 0], "src", none⟩] :
          List ChunkWithEmbedding).map (toSimilar [1, 0])).filter
        (fun c => decide (c.similarity > 2)))) (-1)) :=
  c9_no_input_validation ⟨[⟨"c0", "alpha", [1, 0], "src", none⟩]⟩ [1, 0] 2 (-1)
    (by intro c hc; rw [List.mem_singleton] at hc; subst hc; rfl)

/-- C10 counterexample: `addChunks` performs no id-uniqueness check, so a
store state with two records sharing the id `"chunk_0"` is reachable by
append operations (exactly what re-running the ingestion demo's
`chunk_${chunkIndex++}` counter from zero produces). -/
theorem c10_counterexample :
    addChunks (saveEmbeddings ⟨[⟨"chunk_0", "alpha", [1], "demo", none⟩]⟩)
        [⟨"chunk_0", "beta", [1], "user-added", none⟩] =
      .ok (saveEmbeddings ⟨[⟨"chunk_0", "alpha", [1], "demo", none⟩,
                            ⟨"chunk_0", "beta", [1], "user-added", none⟩]⟩) ∧
    ([⟨"chunk_0", "alpha", [1], "demo", none⟩,
      ⟨"chunk_0", "beta", [1], "user-added", none⟩] :
        List ChunkWithEmbedding).map (fun c => c.id) = ["chunk_0", "chunk_0"] ∧
    ¬ List.Nodup ["chunk_0", "chunk_0"] :=
  ⟨rfl, rfl, by decide⟩

/-- C10 amended: the store enforces no id uniqueness. A store reachable from
a persisted state by any sequence of appends holds exactly the prior records
followed by the concatenated batches, ids stored verbatim — so ids are
pairwise distinct exactly when the prior ids together with the concatenated
batch ids are, and nothing prevents a duplicate. -/
theorem c10_ids_not_unique (s : EmbeddingStore)
    (batches : List (List ChunkWithEmbedding)) :
    appendAll (saveEmbeddings s) batches =
      .ok (saveEmbeddings ⟨s.chunks ++ batches.flatten⟩) ∧
    (s.chunks ++ batches.flatten).map (fun c => c.id) =
      s.chunks.map (fun c => c.id) ++ (batches.flatten).map (fun c => c.id) := by
  constructor
  · induction batches generalizing s with
    | nil => simp [appendAll]
    | cons b bs ih =>
      have hadd : addChunks (saveEmbeddings s) b =
          .ok (saveEmbeddings ⟨s.chunks ++ b⟩) := by
        unfold addChunks
        rw [show loadEmbeddings (saveEmbeddings s) = .ok (encodeStore s) from rfl]
        simp [decodeStore_encodeStore]
      unfold appendAll
      rw [hadd]
      show appendAll (saveEmbeddings ⟨s.chunks ++ b⟩) bs = _
      rw [ih ⟨s.chunks ++ b⟩]
      simp [List.append_assoc]
  · simp [List.map_append]
